import Mathlib

/-!
Formal model of the ProTune pitch-detection core (`src/utils/tunerMath.ts`,
with the pitch-class table from `src/constants.ts`).

The detector `autoCorrelate` is embedded over `ℚ` (the JavaScript floats are
idealised as exact rationals).  JavaScript quirks that the original code relies
on are modelled explicitly:

* reading an array out of bounds yields `undefined`; every comparison against
  `undefined` (or `NaN`) is false, and arithmetic on it yields `NaN`, which is
  falsy in an `if`.  `jsGet` returns an `Option ℚ` for exactly this reason and
  `refineT0` skips the parabolic update whenever one of its three reads is out
  of bounds (the JS `if (a)` with `a = NaN`).
* `x / 0` on numbers is `Infinity`; the result field `frequency` is an
  `Option ℚ` whose `none` stands for that non-finite value.
* `Math.sqrt(sumOfSquares / SIZE)` for `SIZE = 0` is `NaN`, so the gate
  comparison `rms < threshold` is false; `gateRejects` carries the
  `length ≠ 0` conjunct for that case and otherwise compares squares, which
  over the reals is equivalent to comparing the square root (lemma
  `gateRejects_iff_rms`).

The note mapper `getNoteFromFrequency` is embedded over `ℝ` because it uses
logarithms; its record fields are `Option`s whose `none` models the
`NaN` / `-Infinity` / `undefined` junk the JavaScript produces when
`frequency / a4` is not positive.
-/

/-- Return record of `autoCorrelate` (`{ frequency, clarity }`).
`frequency = none` models a JavaScript `Infinity` (division by a zero period);
all finite values are `some`. -/
structure DetectionResult where
  frequency : Option ℚ
  clarity : ℚ
deriving DecidableEq

/-- The `sumOfSquares` accumulation loop of `autoCorrelate`:
`for (i …) sumOfSquares += buffer[i] * buffer[i]`. -/
def sumOfSquares (buffer : List ℚ) : ℚ :=
  buffer.foldl (fun acc x => acc + x * x) 0

/-- The noise-gate threshold `0.06 - sensitivity * 0.05` of `autoCorrelate`. -/
def jsThreshold (sensitivity : ℚ) : ℚ :=
  6 / 100 - sensitivity * (5 / 100)

/-- The noise-gate test `rootMeanSquare < threshold` of `autoCorrelate`, where
`rootMeanSquare = Math.sqrt(sumOfSquares / SIZE)`.  For an empty buffer the
JavaScript quotient is `NaN`, the square root is `NaN`, and the comparison is
false — hence the `length ≠ 0` conjunct.  Otherwise, since the root is
non-negative, `sqrt q < t` holds exactly when `0 < t` and `q < t ^ 2`; that
square comparison keeps the condition inside `ℚ` (see `gateRejects_iff_rms`
for the equivalence with the real square root). -/
def gateRejects (buffer : List ℚ) (sensitivity : ℚ) : Prop :=
  buffer.length ≠ 0 ∧ 0 < jsThreshold sensitivity ∧
    sumOfSquares buffer / (buffer.length : ℚ) < jsThreshold sensitivity ^ 2

instance (b : List ℚ) (s : ℚ) : Decidable (gateRejects b s) :=
  inferInstanceAs (Decidable (_ ∧ _ ∧ _))

/-- First element of a list of candidate indices satisfying `p`
(the `for … if … break` search idiom used twice by `autoCorrelate`). -/
def firstIdx (p : ℕ → Prop) [DecidablePred p] : List ℕ → Option ℕ
  | [] => none
  | i :: rest => if p i then some i else firstIdx p rest

/-- The forward trim scan of `autoCorrelate`:
`for (i = 0; i < SIZE / 2; i++) if (|buffer[i]| < 0.2) { r1 = i; break }`,
with `r1` defaulting to `0`.  The loop guard `i < SIZE / 2` on naturals is
`2 * i < SIZE`, i.e. `i < (SIZE + 1) / 2`. -/
def findR1 (buffer : List ℚ) : ℕ :=
  (firstIdx (fun i => |buffer.getD i 0| < 1 / 5)
    (List.range' 0 ((buffer.length + 1) / 2))).getD 0

/-- The backward trim scan of `autoCorrelate`:
`for (i = 1; i < SIZE / 2; i++) if (|buffer[SIZE - i]| < 0.2) { r2 = SIZE - i; break }`,
with `r2` defaulting to `SIZE - 1`. -/
def findR2 (buffer : List ℚ) : ℕ :=
  match firstIdx (fun i => |buffer.getD (buffer.length - i) 0| < 1 / 5)
      (List.range' 1 ((buffer.length + 1) / 2 - 1)) with
  | some i => buffer.length - i
  | none => buffer.length - 1

/-- `buffer2 = buffer.slice(r1, r2)` — JavaScript `slice` excludes its end
index, so this is the half-open crop `[r1, r2)`. -/
def trimmedBuffer (buffer : List ℚ) : List ℚ :=
  (buffer.drop (findR1 buffer)).take (findR2 buffer - findR1 buffer)

/-- The autocorrelation double loop of `autoCorrelate`:
`for (i) for (j < len - i) c[i] += buffer2[j] * buffer2[j + i]`;
entry `i` accumulates its own sum, so `c` is the list of those accumulations. -/
def computeC (b : List ℚ) : List ℚ :=
  (List.range b.length).map (fun i =>
    (List.range (b.length - i)).foldl
      (fun acc j => acc + b.getD j 0 * b.getD (j + i) 0) 0)

/-- The trough scan `let d = 0; while (c[d] > c[d+1]) d++` of `autoCorrelate`.
When `d + 1` runs past the end, `c[d+1]` is `undefined` and the comparison is
false, so the loop stops; hence the recursion is over successive pairs. -/
def findDAux : List ℚ → ℕ
  | x :: y :: rest => if y < x then findDAux (y :: rest) + 1 else 0
  | _ => 0

/-- The peak search of `autoCorrelate`: starting from `maxval = -1`,
`maxpos = -1`, scan `i = d … c.length - 1` and record the strictly larger
correlation values.  The position is an `ℤ` because the JavaScript initial
value `-1` survives when no entry exceeds `-1`. -/
def findMax (c : List ℚ) (d : ℕ) : ℚ × ℤ :=
  (List.range' d (c.length - d)).foldl
    (fun acc i => if acc.1 < c.getD i 0 then (c.getD i 0, (i : ℤ)) else acc)
    (-1, -1)

/-- JavaScript array read `c[k]` for an integer index: `undefined` (`none`)
when out of bounds, in particular for every negative index. -/
def jsGet (c : List ℚ) (k : ℤ) : Option ℚ :=
  if 0 ≤ k then c.get? k.toNat else none

/-- The parabolic-interpolation step of `autoCorrelate`:
`x1 = c[T0-1]; x2 = c[T0]; x3 = c[T0+1]; a = (x1+x3-2*x2)/2; b = (x3-x1)/2;
if (a) T0 = T0 - b / (2*a)`.  If any of the three reads is out of bounds the
JavaScript `a` is `NaN`, which is falsy, so `T0` is left unchanged; likewise
when `a` is exactly `0`. -/
def refineT0 (c : List ℚ) (T0 : ℤ) : ℚ :=
  match jsGet c (T0 - 1), jsGet c T0, jsGet c (T0 + 1) with
  | some x1, some _x2, some x3 =>
    if (x1 + x3 - 2 * _x2) / 2 = 0 then (T0 : ℚ)
    else (T0 : ℚ) - ((x3 - x1) / 2) / (2 * ((x1 + x3 - 2 * _x2) / 2))
  | _, _, _ => (T0 : ℚ)

/-- The correlation list computed by `autoCorrelate` on the trimmed buffer. -/
def corr (buffer : List ℚ) : List ℚ :=
  computeC (trimmedBuffer buffer)

/-- The `(maxval, maxpos)` pair computed by `autoCorrelate` after the trough
scan. -/
def peak (buffer : List ℚ) : ℚ × ℤ :=
  findMax (corr buffer) (findDAux (corr buffer))

/-- `autoCorrelate(buffer, sampleRate, sensitivity)` from
`src/utils/tunerMath.ts`, assembled from the pieces above in the order of the
source: noise gate (early return `{ frequency: -1, clarity: 0 }`), edge
trimming, autocorrelation, trough-then-peak search, parabolic refinement,
`clarity = c[0] > 0 ? maxval / c[0] : 0`, and
`frequency = sampleRate / T0`. -/
def autoCorrelate (buffer : List ℚ) (sampleRate : ℚ) (sensitivity : ℚ) :
    DetectionResult :=
  if gateRejects buffer sensitivity then
    { frequency := some (-1), clarity := 0 }
  else
    { frequency :=
        if refineT0 (corr buffer) (peak buffer).2 = 0 then none
        else some (sampleRate / refineT0 (corr buffer) (peak buffer).2)
      clarity :=
        if 0 < (corr buffer).getD 0 0 then
          (peak buffer).1 / (corr buffer).getD 0 0
        else 0 }

/-- `NOTE_NAMES` from `src/constants.ts`. -/
def NOTE_NAMES : List String :=
  ["C", "C♯", "D", "D♯", "E", "F", "F♯", "G", "G♯", "A", "A♯", "B"]

/-- JavaScript array read with an integer index on the pitch-class table:
negative or too-large indices give `undefined` (`none`). -/
def listGetJS (l : List String) (k : ℤ) : Option String :=
  if 0 ≤ k then l.get? k.toNat else none

/-- Return record of `getNoteFromFrequency`.  A `none` field models the
non-finite junk (`NaN`, `-Infinity`, `undefined`) that the JavaScript code
propagates when its logarithm is taken of a non-positive ratio. -/
structure JSNote where
  name : Option String
  octave : Option ℤ
  cents : Option ℝ
  noteIndex : Option ℤ
  targetFrequency : Option ℝ

/-- `getNoteFromFrequency(frequency, a4)` from `src/utils/tunerMath.ts`.
When `frequency / a4 > 0` every step of the source is finite and is mirrored
exactly: `noteNum = 12 * (Math.log(frequency / a4) / Math.log(2))`,
`noteIndex = Math.round(noteNum) + 69` (JavaScript `Math.round` is
`⌊x + 1/2⌋`, as is Mathlib's `round`), `name = NOTE_NAMES[noteIndex % 12]`
(JavaScript `%` truncates, i.e. `Int.tmod`, so a negative `noteIndex` can
produce a negative index and an `undefined` name),
`octave = Math.floor(noteIndex / 12) - 1`,
`targetFrequency = a4 * 2 ^ ((noteIndex - 69) / 12)` and
`cents = 1200 * (Math.log(frequency / targetFrequency) / Math.log(2))`.
Otherwise the logarithm is `NaN` or `-Infinity` and every derived field is
non-finite junk, modelled as `none`; the code raises no error either way. -/
noncomputable def getNoteFromFrequency (frequency : ℝ) (a4 : ℝ) : JSNote :=
  if 0 < frequency / a4 then
    let noteNum : ℝ := 12 * (Real.log (frequency / a4) / Real.log 2)
    let noteIndex : ℤ := round noteNum + 69
    let targetFrequency : ℝ := a4 * (2 : ℝ) ^ (((noteIndex : ℝ) - 69) / 12)
    { name := listGetJS NOTE_NAMES (Int.tmod noteIndex 12)
      octave := some (⌊(noteIndex : ℚ) / 12⌋ - 1)
      cents := some (1200 * (Real.log (frequency / targetFrequency) / Real.log 2))
      noteIndex := some noteIndex
      targetFrequency := some targetFrequency }
  else
    { name := none, octave := none, cents := none, noteIndex := none
      targetFrequency := none }

/-- The root-mean-square `Math.sqrt(sumOfSquares / SIZE)` of the source, as a
real number. -/
noncomputable def rmsValue (buffer : List ℚ) : ℝ :=
  Real.sqrt ((sumOfSquares buffer : ℝ) / (buffer.length : ℝ))

/-- For a non-empty buffer, `gateRejects` is exactly the source's comparison
`rootMeanSquare < threshold`. -/
theorem gateRejects_iff_rms (buffer : List ℚ) (s : ℚ) (h : buffer.length ≠ 0) :
    gateRejects buffer s ↔ rmsValue buffer < (jsThreshold s : ℝ) := by
  unfold gateRejects
  constructor
  · rintro ⟨-, ht, hlt⟩
    have ht' : (0 : ℝ) < (jsThreshold s : ℝ) := by exact_mod_cast ht
    rw [rmsValue, Real.sqrt_lt' ht']
    exact_mod_cast hlt
  · intro hlt
    have ht' : (0 : ℝ) < (jsThreshold s : ℝ) :=
      lt_of_le_of_lt (Real.sqrt_nonneg _) hlt
    have ht : 0 < jsThreshold s := by exact_mod_cast ht'
    refine ⟨h, ht, ?_⟩
    rw [rmsValue, Real.sqrt_lt' ht'] at hlt
    have : ((sumOfSquares buffer / (buffer.length : ℚ)) : ℝ) <
        ((jsThreshold s ^ 2 : ℚ) : ℝ) := by
      exact_mod_cast hlt
    exact_mod_cast this

/-- C1: for a gated-through frame whose trimmed buffer has fewer than 3
samples (here 2) the integer peak lag lands on the extreme lag 1 with no valid
right neighbour, yet `autoCorrelate` does not report the
`{ frequency := -1, clarity := 0 }` sentinel: it returns the non-sentinel
result `{ frequency := sampleRate, clarity := 1/2 }`.  The code never crashes
(JavaScript out-of-bounds reads give `undefined` and `NaN` is falsy), but it
does not fail safe either. -/
theorem autoCorrelate_edge_case_not_failsafe :
    ¬ gateRejects [1/2, 1/10, 1/10, 1/2] (1/2) ∧
    (trimmedBuffer [1/2, 1/10, 1/10, 1/2]).length = 2 ∧
    (peak [1/2, 1/10, 1/10, 1/2]).2 = 1 ∧
    autoCorrelate [1/2, 1/10, 1/10, 1/2] 44100 (1/2) =
      { frequency := some 44100, clarity := 1/2 } := by
  have hg : ¬ gateRejects [1/2, 1/10, 1/10, 1/2] (1/2) := by
    norm_num [gateRejects, sumOfSquares, jsThreshold]
  have htrim : trimmedBuffer [1/2, 1/10, 1/10, 1/2] = [1/10, 1/10] := by
    norm_num [trimmedBuffer, findR1, findR2, firstIdx, List.range', abs_lt]
  have hcorr : corr [1/2, 1/10, 1/10, 1/2] = [1/50, 1/100] := by
    rw [corr, htrim]
    norm_num [computeC, List.range_succ]
  have hd : findDAux [(1 : ℚ)/50, 1/100] = 1 := by
    norm_num [findDAux]
  have hpeak : peak [1/2, 1/10, 1/10, 1/2] = (1/100, 1) := by
    rw [peak, hcorr, hd]
    norm_num [findMax, List.range']
  have href : refineT0 (corr [1/2, 1/10, 1/10, 1/2])
      (peak [1/2, 1/10, 1/10, 1/2]).2 = 1 := by
    rw [hcorr, hpeak]
    show refineT0 [1/50, 1/100] 1 = 1
    have h1 : jsGet [1/50, 1/100] (1 - 1) = some (1/50) := rfl
    have h2 : jsGet [1/50, 1/100] 1 = some (1/100) := rfl
    have h3 : jsGet [1/50, 1/100] (1 + 1) = none := rfl
    rw [refineT0, h1, h2, h3]
    norm_num
  refine ⟨hg, by rw [htrim]; rfl, by rw [hpeak], ?_⟩
  rw [autoCorrelate, if_neg hg, href, hcorr, hpeak]
  norm_num

/-- C2 counterexample: a gated-through frame can yield a non-sentinel result
whose clarity is negative (`-1/2 ∉ [0,1]`; the source never clamps), and a
frame of length 1 trims to the empty buffer, giving the non-sentinel frequency
`-sampleRate ≤ 0`. -/
theorem detection_range_counterexample :
    (autoCorrelate [1/2, 1/10, -1/10, 1/2] 44100 (1/2)).frequency = some 44100 ∧
    (autoCorrelate [1/2, 1/10, -1/10, 1/2] 44100 (1/2)).frequency ≠ some (-1) ∧
    (autoCorrelate [1/2, 1/10, -1/10, 1/2] 44100 (1/2)).clarity = -(1/2) ∧
    (autoCorrelate [1/2] 44100 (1/2)).frequency = some (-44100) := by
  have hg : ¬ gateRejects [1/2, 1/10, -1/10, 1/2] (1/2) := by
    norm_num [gateRejects, sumOfSquares, jsThreshold]
  have htrim : trimmedBuffer [1/2, 1/10, -1/10, 1/2] = [1/10, -1/10] := by
    norm_num [trimmedBuffer, findR1, findR2, firstIdx, List.range', abs_lt]
  have hcorr : corr [1/2, 1/10, -1/10, 1/2] = [1/50, -1/100] := by
    rw [corr, htrim]
    norm_num [computeC, List.range_succ]
  have hd : findDAux [(1 : ℚ)/50, -1/100] = 1 := by
    norm_num [findDAux]
  have hpeak : peak [1/2, 1/10, -1/10, 1/2] = (-1/100, 1) := by
    rw [peak, hcorr, hd]
    norm_num [findMax, List.range']
  have href : refineT0 (corr [1/2, 1/10, -1/10, 1/2])
      (peak [1/2, 1/10, -1/10, 1/2]).2 = 1 := by
    rw [hcorr, hpeak]
    show refineT0 [1/50, -1/100] 1 = 1
    have h1 : jsGet [1/50, -1/100] (1 - 1) = some (1/50) := rfl
    have h2 : jsGet [1/50, -1/100] 1 = some (-1/100) := rfl
    have h3 : jsGet [1/50, -1/100] (1 + 1) = none := rfl
    rw [refineT0, h1, h2, h3]
    norm_num
  have hmain : autoCorrelate [1/2, 1/10, -1/10, 1/2] 44100 (1/2) =
      { frequency := some 44100, clarity := -(1/2) } := by
    rw [autoCorrelate, if_neg hg, href, hcorr, hpeak]
    norm_num
  have hg1 : ¬ gateRejects [1/2] (1/2) := by
    norm_num [gateRejects, sumOfSquares, jsThreshold]
  have htrim1 : trimmedBuffer [1/2] = [] := by
    norm_num [trimmedBuffer, findR1, findR2, firstIdx, List.range', abs_lt]
  have hcorr1 : corr [1/2] = [] := by
    rw [corr, htrim1]
    norm_num [computeC]
  have hd1 : findDAux ([] : List ℚ) = 0 := rfl
  have hpeak1 : peak [1/2] = (-1, -1) := by
    rw [peak, hcorr1, hd1]
    norm_num [findMax, List.range']
  have href1 : refineT0 (corr [1/2]) (peak [1/2]).2 = -1 := by
    rw [hcorr1, hpeak1]
    show refineT0 [] (-1) = -1
    have h1 : jsGet [] (-1 - 1) = none := rfl
    rw [refineT0, h1]
    norm_num
  have hmain1 : autoCorrelate [1/2] 44100 (1/2) =
      { frequency := some (-44100), clarity := 0 } := by
    rw [autoCorrelate, if_neg hg1, href1, hcorr1]
    norm_num
  rw [hmain, hmain1]
  norm_num

/-- C9: the noise-gate threshold `0.06 - sensitivity * 0.05` used by
`autoCorrelate` is non-increasing in the sensitivity. -/
theorem threshold_antitone (s1 s2 : ℚ) (h0 : 0 < s1) (h12 : s1 ≤ s2)
    (h1 : s2 ≤ 1) : jsThreshold s2 ≤ jsThreshold s1 := by
  unfold jsThreshold
  linarith

/-- Witness for `threshold_antitone` at `s1 = 1/4`, `s2 = 1/2`. -/
theorem threshold_antitone_witness :
    (0 : ℚ) < 1/4 ∧ (1/4 : ℚ) ≤ 1/2 ∧ (1/2 : ℚ) ≤ 1 ∧
    jsThreshold (1/2) ≤ jsThreshold (1/4) :=
  ⟨by norm_num, by norm_num, by norm_num,
    threshold_antitone (1/4) (1/2) (by norm_num) (by norm_num) (by norm_num)⟩

/-- The accumulation loop over an all-zero frame stays at `0`. -/
theorem sumOfSquares_replicate_zero (n : ℕ) :
    sumOfSquares (List.replicate n 0) = 0 := by
  have key : ∀ (m : ℕ) (a : ℚ),
      (List.replicate m (0 : ℚ)).foldl (fun acc x => acc + x * x) a = a := by
    intro m
    induction m with
    | zero => intro a; rfl
    | succ k ih => intro a; simpa [List.replicate_succ] using ih a
  exact key n 0

/-- C8: on an all-zero frame of positive length, for any sensitivity in
`(0, 1]`, the noise gate fires (so the period search is skipped via the early
return) and `autoCorrelate` yields the sentinel
`{ frequency := -1, clarity := 0 }`. -/
theorem silence_no_pitch (n : ℕ) (sr s : ℚ) (hn : 0 < n) (hs0 : 0 < s)
    (hs1 : s ≤ 1) :
    gateRejects (List.replicate n 0) s ∧
    autoCorrelate (List.replicate n 0) sr s =
      { frequency := some (-1), clarity := 0 } := by
  have hg : gateRejects (List.replicate n 0) s := by
    have ht : 0 < jsThreshold s := by unfold jsThreshold; linarith
    refine ⟨by simp; omega, ht, ?_⟩
    rw [sumOfSquares_replicate_zero, zero_div]
    exact pow_pos ht 2
  exact ⟨hg, by rw [autoCorrelate, if_pos hg]⟩

/-- Witness for `silence_no_pitch` at `n = 4`, `sampleRate = 44100`,
`sensitivity = 1/2`. -/
theorem silence_no_pitch_witness :
    (0 : ℕ) < 4 ∧ (0 : ℚ) < 1/2 ∧ (1/2 : ℚ) ≤ 1 ∧
    gateRejects (List.replicate 4 0) (1/2) ∧
    autoCorrelate (List.replicate 4 0) 44100 (1/2) =
      { frequency := some (-1), clarity := 0 } :=
  ⟨by norm_num, by norm_num, by norm_num,
    (silence_no_pitch 4 44100 (1/2) (by norm_num) (by norm_num)
      (by norm_num)).1,
    (silence_no_pitch 4 44100 (1/2) (by norm_num) (by norm_num)
      (by norm_num)).2⟩

/-- C3: for a non-positive frequency (and a positive reference),
`getNoteFromFrequency` raises no error at all — it silently returns a record
whose every field is the non-finite junk produced by `Math.log` of a
non-positive number (modelled by `none`).  The claim that it fails loudly is
contradicted by the code. -/
theorem getNote_nonpositive_silent (f a4 : ℝ) (hf : f ≤ 0) (ha : 0 < a4) :
    (getNoteFromFrequency f a4).name = none ∧
    (getNoteFromFrequency f a4).octave = none ∧
    (getNoteFromFrequency f a4).cents = none ∧
    (getNoteFromFrequency f a4).noteIndex = none ∧
    (getNoteFromFrequency f a4).targetFrequency = none := by
  have hcond : ¬ (0 < f / a4) := by
    rw [not_lt]
    exact div_nonpos_of_nonpos_of_nonneg hf ha.le
  rw [getNoteFromFrequency, if_neg hcond]
  exact ⟨rfl, rfl, rfl, rfl, rfl⟩

/-- Witness for `getNote_nonpositive_silent` at `frequency = -1`,
`a4 = 440`. -/
theorem getNote_nonpositive_silent_witness :
    ((-1 : ℝ) ≤ 0) ∧ ((0 : ℝ) < 440) ∧
    (getNoteFromFrequency (-1) 440).name = none ∧
    (getNoteFromFrequency (-1) 440).noteIndex = none :=
  ⟨by norm_num, by norm_num,
    (getNote_nonpositive_silent (-1) 440 (by norm_num) (by norm_num)).1,
    (getNote_nonpositive_silent (-1) 440 (by norm_num) (by norm_num)).2.2.2.1⟩

/-- An additive `foldl` over `List.range` is a `Finset.range` sum. -/
theorem foldl_add_eq_sum (g : ℕ → ℚ) (n : ℕ) :
    (List.range n).foldl (fun acc j => acc + g j) 0 =
      ∑ j in Finset.range n, g j := by
  have key : ∀ (m : ℕ) (a : ℚ),
      (List.range m).foldl (fun acc j => acc + g j) a =
        a + ∑ j in Finset.range m, g j := by
    intro m
    induction m with
    | zero => intro a; simp
    | succ k ih =>
      intro a
      rw [List.range_succ, List.foldl_append, ih a, Finset.sum_range_succ]
      simp [add_assoc]
  simpa using key n 0

/-- `computeC` preserves the length of its input. -/
theorem computeC_length (b : List ℚ) : (computeC b).length = b.length := by
  simp [computeC]

/-- Entry `lag` of the correlation list is the textbook autocorrelation sum. -/
theorem computeC_getD (b : List ℚ) (lag : ℕ) (h : lag < b.length) :
    (computeC b).getD lag 0 =
      ∑ j in Finset.range (b.length - lag), b.getD j 0 * b.getD (j + lag) 0 := by
  rw [computeC, List.getD_eq_get?, List.get?_map, List.get?_range h]
  simpa using foldl_add_eq_sum (fun j => b.getD j 0 * b.getD (j + lag) 0)
    (b.length - lag)

/-- C5: on the cropped buffer of length `M`, the correlation list built by
`autoCorrelate` satisfies `c[lag] = Σ_{j=0}^{M-1-lag} buf[j] * buf[j+lag]`
for every `lag` in `[0, M-1]`. -/
theorem autocorrelation_formula (buffer : List ℚ) (lag : ℕ)
    (h : lag < (trimmedBuffer buffer).length) :
    (corr buffer).getD lag 0 =
      ∑ j in Finset.range ((trimmedBuffer buffer).length - lag),
        (trimmedBuffer buffer).getD j 0 * (trimmedBuffer buffer).getD (j + lag) 0 :=
  computeC_getD _ lag h

/-- Witness for `autocorrelation_formula` at the frame
`[1/2, 1/10, 1/10, 1/2]`, `lag = 1`. -/
theorem autocorrelation_formula_witness :
    1 < (trimmedBuffer [1/2, 1/10, 1/10, 1/2]).length ∧
    (corr [1/2, 1/10, 1/10, 1/2]).getD 1 0 =
      ∑ j in Finset.range ((trimmedBuffer [1/2, 1/10, 1/10, 1/2]).length - 1),
        (trimmedBuffer [1/2, 1/10, 1/10, 1/2]).getD j 0 *
          (trimmedBuffer [1/2, 1/10, 1/10, 1/2]).getD (j + 1) 0 :=
  ⟨by norm_num [trimmedBuffer, findR1, findR2, firstIdx, List.range', abs_lt],
    autocorrelation_formula [1/2, 1/10, 1/10, 1/2] 1
      (by norm_num [trimmedBuffer, findR1, findR2, firstIdx, List.range', abs_lt])⟩

/-- Every correlation entry is bounded in absolute value by the zero-lag
self-energy `c[0]` (termwise arithmetic-geometric mean bound). -/
theorem computeC_abs_le (b : List ℚ) (i : ℕ) (hi : i < b.length) :
    |(computeC b).getD i 0| ≤ (computeC b).getD 0 0 := by
  have h0 : 0 < b.length := Nat.lt_of_le_of_lt (Nat.zero_le i) hi
  rw [computeC_getD b i hi, computeC_getD b 0 h0]
  simp only [Nat.sub_zero, add_zero]
  have hsq : ∀ j : ℕ, 0 ≤ b.getD j 0 * b.getD j 0 := fun j => mul_self_nonneg _
  have habs : ∀ j : ℕ, |b.getD j 0 * b.getD (j + i) 0| ≤
      (b.getD j 0 * b.getD j 0 + b.getD (j + i) 0 * b.getD (j + i) 0) / 2 := by
    intro j
    rw [abs_mul]
    nlinarith [abs_nonneg (b.getD j 0), abs_nonneg (b.getD (j + i) 0),
      sq_abs (b.getD j 0), sq_abs (b.getD (j + i) 0),
      sq_nonneg (|b.getD j 0| - |b.getD (j + i) 0|)]
  have hshift : ∑ j in Finset.range (b.length - i),
      b.getD (j + i) 0 * b.getD (j + i) 0 =
      ∑ k in Finset.Ico i b.length, b.getD k 0 * b.getD k 0 := by
    rw [Finset.sum_Ico_eq_sum_range]
    apply Finset.sum_congr rfl
    intro j _
    rw [add_comm i j]
  have hico : ∑ k in Finset.Ico i b.length, b.getD k 0 * b.getD k 0 ≤
      ∑ j in Finset.range b.length, b.getD j 0 * b.getD j 0 := by
    rw [Finset.range_eq_Ico]
    exact Finset.sum_le_sum_of_subset_of_nonneg
      (Finset.Ico_subset_Ico (Nat.zero_le i) le_rfl) (fun j _ _ => hsq j)
  have hsub : ∑ j in Finset.range (b.length - i), b.getD j 0 * b.getD j 0 ≤
      ∑ j in Finset.range b.length, b.getD j 0 * b.getD j 0 :=
    Finset.sum_le_sum_of_subset_of_nonneg
      (Finset.range_subset.2 (Nat.sub_le _ _)) (fun j _ _ => hsq j)
  calc |∑ j in Finset.range (b.length - i), b.getD j 0 * b.getD (j + i) 0|
      ≤ ∑ j in Finset.range (b.length - i), |b.getD j 0 * b.getD (j + i) 0| :=
        Finset.abs_sum_le_sum_abs _ _
    _ ≤ ∑ j in Finset.range (b.length - i),
          (b.getD j 0 * b.getD j 0 + b.getD (j + i) 0 * b.getD (j + i) 0) / 2 :=
        Finset.sum_le_sum (fun j _ => habs j)
    _ = ((∑ j in Finset.range (b.length - i), b.getD j 0 * b.getD j 0)
          + ∑ j in Finset.range (b.length - i),
              b.getD (j + i) 0 * b.getD (j + i) 0) / 2 := by
        rw [← Finset.sum_div, Finset.sum_add_distrib]
    _ ≤ ((∑ j in Finset.range b.length, b.getD j 0 * b.getD j 0)
          + ∑ j in Finset.range b.length, b.getD j 0 * b.getD j 0) / 2 := by
        have hA2 : ∑ j in Finset.range (b.length - i),
            b.getD (j + i) 0 * b.getD (j + i) 0 ≤
            ∑ j in Finset.range b.length, b.getD j 0 * b.getD j 0 :=
          hshift ▸ hico
        linarith
    _ = ∑ j in Finset.range b.length, b.getD j 0 * b.getD j 0 := by ring

/-- The trough scan stops strictly inside a non-empty list. -/
theorem findDAux_lt_length (c : List ℚ) (h : c ≠ []) :
    findDAux c < c.length := by
  induction c with
  | nil => exact absurd rfl h
  | cons x rest ih =>
    cases rest with
    | nil => simp [findDAux]
    | cons y rest2 =>
      rw [findDAux]
      by_cases hxy : y < x
      · rw [if_pos hxy]
        have := ih (by simp)
        simp only [List.length_cons] at this ⊢
        omega
      · rw [if_neg hxy]
        simp

/-- The peak-search fold never decreases the running maximum. -/
theorem foldlMax_acc_le (c : List ℚ) (idxs : List ℕ) (acc : ℚ × ℤ) :
    acc.1 ≤ (idxs.foldl
      (fun a i => if a.1 < c.getD i 0 then (c.getD i 0, (i : ℤ)) else a)
      acc).1 := by
  induction idxs generalizing acc with
  | nil => exact le_refl _
  | cons x xs ih =>
    rw [List.foldl_cons]
    refine le_trans ?_ (ih _)
    by_cases h : acc.1 < c.getD x 0
    · rw [if_pos h]
      exact le_of_lt h
    · rw [if_neg h]

/-- If the accumulator and all scanned entries are at most `M`, so is the
result of the peak-search fold. -/
theorem foldlMax_le (c : List ℚ) (M : ℚ) (idxs : List ℕ) (acc : ℚ × ℤ)
    (ha : acc.1 ≤ M) (hall : ∀ i ∈ idxs, c.getD i 0 ≤ M) :
    (idxs.foldl
      (fun a i => if a.1 < c.getD i 0 then (c.getD i 0, (i : ℤ)) else a)
      acc).1 ≤ M := by
  induction idxs generalizing acc with
  | nil => exact ha
  | cons x xs ih =>
    rw [List.foldl_cons]
    apply ih
    · by_cases h : acc.1 < c.getD x 0
      · rw [if_pos h]
        exact hall x (List.mem_cons_self x xs)
      · rw [if_neg h]
        exact ha
    · intro i hmem
      exact hall i (List.mem_cons_of_mem x hmem)

/-- The peak-search fold dominates every scanned entry. -/
theorem foldlMax_mem_le (c : List ℚ) (idxs : List ℕ) (acc : ℚ × ℤ) (i : ℕ)
    (hmem : i ∈ idxs) :
    c.getD i 0 ≤ (idxs.foldl
      (fun a i => if a.1 < c.getD i 0 then (c.getD i 0, (i : ℤ)) else a)
      acc).1 := by
  induction idxs generalizing acc with
  | nil => cases hmem
  | cons x xs ih =>
    rw [List.foldl_cons]
    rcases List.mem_cons.mp hmem with h | h
    · subst h
      refine le_trans ?_ (foldlMax_acc_le c xs _)
      by_cases hx : acc.1 < c.getD i 0
      · rw [if_pos hx]
      · rw [if_neg hx]
        exact le_of_not_lt hx
    · exact ih _ h

/-- Upper bound for `findMax`: if `-1 ≤ M` and every in-range entry is at
most `M`, the found maximum is at most `M`. -/
theorem findMax_fst_le (c : List ℚ) (d : ℕ) (M : ℚ) (hM : -1 ≤ M)
    (hall : ∀ i, i < c.length → c.getD i 0 ≤ M) : (findMax c d).1 ≤ M := by
  apply foldlMax_le c M _ _ hM
  intro i hmem
  have h := List.mem_range'_1.mp hmem
  exact hall i (by omega)

/-- Lower bound for `findMax`: the found maximum dominates the entry at the
start of the scan. -/
theorem findMax_fst_ge (c : List ℚ) (d : ℕ) (hd : d < c.length) :
    c.getD d 0 ≤ (findMax c d).1 := by
  apply foldlMax_mem_le
  rw [List.mem_range'_1]
  omega

/-- C2 (amended): the clarity returned by `autoCorrelate` always lies in
`[-1, 1]`.  (The claimed lower bound `0` fails — see
`detection_range_counterexample` — because the source never clamps
`maxval / c[0]` and `maxval` can be negative; `1` is a true upper bound since
every correlation entry is dominated by the zero-lag energy.) -/
theorem clarity_bounded (buffer : List ℚ) (sr s : ℚ) :
    -1 ≤ (autoCorrelate buffer sr s).clarity ∧
    (autoCorrelate buffer sr s).clarity ≤ 1 := by
  rw [autoCorrelate]
  by_cases hg : gateRejects buffer s
  · rw [if_pos hg]
    norm_num
  · rw [if_neg hg]
    dsimp only
    by_cases hc : 0 < (corr buffer).getD 0 0
    · rw [if_pos hc]
      have hlen : (corr buffer).length = (trimmedBuffer buffer).length :=
        computeC_length _
      have hne : corr buffer ≠ [] := by
        intro h0
        rw [h0] at hc
        exact absurd hc (by norm_num [List.getD])
      have habs : ∀ i, i < (corr buffer).length →
          |(corr buffer).getD i 0| ≤ (corr buffer).getD 0 0 := by
        intro i h
        exact computeC_abs_le (trimmedBuffer buffer) i (by rw [← hlen]; exact h)
      have hd : findDAux (corr buffer) < (corr buffer).length :=
        findDAux_lt_length _ hne
      have hub : (peak buffer).1 ≤ (corr buffer).getD 0 0 :=
        findMax_fst_le _ _ _ (by linarith)
          (fun i h => (abs_le.mp (habs i h)).2)
      have hlb : -((corr buffer).getD 0 0) ≤ (peak buffer).1 := by
        have h1 : (corr buffer).getD (findDAux (corr buffer)) 0 ≤
            (peak buffer).1 := findMax_fst_ge _ _ hd
        have h2 := (abs_le.mp (habs _ hd)).1
        linarith
      constructor
      · rw [le_div_iff hc]
        linarith
      · rw [div_le_one hc]
        exact hub
    · rw [if_neg hc]
      norm_num

/-- A successful `firstIdx` over `range' s n` returns the least index in
`[s, s + n)` satisfying `p`. -/
theorem firstIdx_range'_some (p : ℕ → Prop) [DecidablePred p] (s n i : ℕ)
    (h : firstIdx p (List.range' s n) = some i) :
    s ≤ i ∧ i < s + n ∧ p i ∧ ∀ j, s ≤ j → j < i → ¬ p j := by
  induction n generalizing s with
  | zero => simp [List.range', firstIdx] at h
  | succ k ih =>
    rw [List.range'_succ] at h
    simp only [firstIdx] at h
    by_cases hp : p s
    · rw [if_pos hp] at h
      obtain rfl := Option.some.inj h
      exact ⟨le_refl _, by omega, hp, fun j h1 h2 => absurd h1 (by omega)⟩
    · rw [if_neg hp] at h
      obtain ⟨h1, h2, h3, h4⟩ := ih (s + 1) h
      refine ⟨by omega, by omega, h3, ?_⟩
      intro j hj1 hj2
      rcases Nat.eq_or_lt_of_le hj1 with rfl | hlt
      · exact hp
      · exact h4 j (by omega) hj2

/-- A failed `firstIdx` over `range' s n` means no index in `[s, s + n)`
satisfies `p`. -/
theorem firstIdx_range'_none (p : ℕ → Prop) [DecidablePred p] (s n : ℕ)
    (h : firstIdx p (List.range' s n) = none) :
    ∀ j, s ≤ j → j < s + n → ¬ p j := by
  induction n generalizing s with
  | zero => intro j h1 h2; omega
  | succ k ih =>
    rw [List.range'_succ] at h
    simp only [firstIdx] at h
    by_cases hp : p s
    · rw [if_pos hp] at h
      exact absurd h (by simp)
    · rw [if_neg hp] at h
      intro j h1 h2
      rcases Nat.eq_or_lt_of_le h1 with rfl | hlt
      · exact hp
      · exact ih (s + 1) h j (by omega) (by omega)

/-- `findR1` is the first index in the first half (`2 * i < SIZE`) whose
sample is below the fixed `0.2` threshold in absolute value, or `0` when no
such index exists in that half. -/
theorem findR1_spec (buffer : List ℚ) :
    (2 * findR1 buffer < buffer.length ∧
      |buffer.getD (findR1 buffer) 0| < 1/5 ∧
      ∀ j, j < findR1 buffer → ¬ (|buffer.getD j 0| < 1/5)) ∨
    (findR1 buffer = 0 ∧
      ∀ j, 2 * j < buffer.length → ¬ (|buffer.getD j 0| < 1/5)) := by
  rcases hfi : firstIdx (fun i => |buffer.getD i 0| < 1 / 5)
      (List.range' 0 ((buffer.length + 1) / 2)) with _ | i
  · right
    have he : findR1 buffer = 0 := by rw [findR1, hfi]; rfl
    refine ⟨he, ?_⟩
    intro j hj
    exact firstIdx_range'_none _ 0 _ hfi j (Nat.zero_le j) (by omega)
  · left
    have he : findR1 buffer = i := by rw [findR1, hfi]; rfl
    obtain ⟨h1, h2, h3, h4⟩ := firstIdx_range'_some _ 0 _ i hfi
    rw [he]
    exact ⟨by omega, h3, fun j hj => h4 j (Nat.zero_le j) hj⟩

/-- `findR2` is the first index found scanning backward from the end within
the strict upper half (`SIZE < 2 * k`), i.e. the largest such index whose
sample is below the `0.2` threshold in absolute value, defaulting to
`SIZE - 1` when the backward scan finds none. -/
theorem findR2_spec (buffer : List ℚ) (hlen : buffer.length ≠ 0) :
    (buffer.length < 2 * findR2 buffer ∧ findR2 buffer < buffer.length ∧
      |buffer.getD (findR2 buffer) 0| < 1/5 ∧
      ∀ k, findR2 buffer < k → k < buffer.length →
        ¬ (|buffer.getD k 0| < 1/5)) ∨
    (findR2 buffer = buffer.length - 1 ∧
      ∀ k, buffer.length < 2 * k → k < buffer.length →
        ¬ (|buffer.getD k 0| < 1/5)) := by
  rcases hfi : firstIdx (fun i => |buffer.getD (buffer.length - i) 0| < 1 / 5)
      (List.range' 1 ((buffer.length + 1) / 2 - 1)) with _ | i
  · right
    have he : findR2 buffer = buffer.length - 1 := by rw [findR2, hfi]
    refine ⟨he, ?_⟩
    intro k hk1 hk2
    have hnone := firstIdx_range'_none _ 1 _ hfi (buffer.length - k)
      (by omega) (by omega)
    rw [Nat.sub_sub_self (by omega)] at hnone
    exact hnone
  · left
    have he : findR2 buffer = buffer.length - i := by rw [findR2, hfi]
    obtain ⟨h1, h2, h3, h4⟩ := firstIdx_range'_some _ 1 _ i hfi
    rw [he]
    refine ⟨by omega, by omega, h3, ?_⟩
    intro k hk1 hk2
    have hx := h4 (buffer.length - k) (by omega) (by omega)
    rw [Nat.sub_sub_self (by omega)] at hx
    exact hx

/-- `findR1` stays inside a non-empty buffer. -/
theorem findR1_lt_length (buffer : List ℚ) (h : buffer.length ≠ 0) :
    findR1 buffer < buffer.length := by
  rcases findR1_spec buffer with ⟨h1, -, -⟩ | ⟨h1, -⟩ <;> omega

/-- `findR2` stays inside a non-empty buffer. -/
theorem findR2_lt_length (buffer : List ℚ) (h : buffer.length ≠ 0) :
    findR2 buffer < buffer.length := by
  rcases findR2_spec buffer h with ⟨-, h2, -, -⟩ | ⟨h1, -⟩ <;> omega

/-- `drop`-then-`take` is the list of samples at the indices of the
corresponding half-open range. -/
theorem drop_take_eq_map_getD (l : List ℚ) (a m : ℕ) (h : a + m ≤ l.length) :
    (l.drop a).take m = (List.range' a m).map (fun i => l.getD i 0) := by
  induction m generalizing a with
  | zero => simp
  | succ k ih =>
    have ha : a < l.length := by omega
    rw [List.range'_succ, List.map_cons, ← ih (a + 1) (by omega)]
    rw [List.drop_eq_getElem_cons ha, List.take_succ_cons]
    congr 1
    rw [List.getD_eq_getElem?_getD, List.getElem?_eq_getElem ha]
    rfl

/-- C4 (amended): for a frame that passes the noise gate, the working buffer
equals the frame cropped to the half-open index range `[r1, r2)` — JavaScript
`slice` excludes `r2`, so the sample at `r2` itself is dropped — where `r1`
is the first below-threshold index in the first half (else `0`) and `r2` is
the first below-threshold index found scanning backward within the second
half (else `SIZE - 1`). -/
theorem trimming_spec (buffer : List ℚ) (s : ℚ)
    (hgate : ¬ gateRejects buffer s) (hlen : 0 < buffer.length) :
    trimmedBuffer buffer =
      (List.range' (findR1 buffer) (findR2 buffer - findR1 buffer)).map
        (fun i => buffer.getD i 0) ∧
    ((2 * findR1 buffer < buffer.length ∧
        |buffer.getD (findR1 buffer) 0| < 1/5 ∧
        ∀ j, j < findR1 buffer → ¬ (|buffer.getD j 0| < 1/5)) ∨
      (findR1 buffer = 0 ∧
        ∀ j, 2 * j < buffer.length → ¬ (|buffer.getD j 0| < 1/5))) ∧
    ((buffer.length < 2 * findR2 buffer ∧ findR2 buffer < buffer.length ∧
        |buffer.getD (findR2 buffer) 0| < 1/5 ∧
        ∀ k, findR2 buffer < k → k < buffer.length →
          ¬ (|buffer.getD k 0| < 1/5)) ∨
      (findR2 buffer = buffer.length - 1 ∧
        ∀ k, buffer.length < 2 * k → k < buffer.length →
          ¬ (|buffer.getD k 0| < 1/5))) := by
  refine ⟨?_, findR1_spec buffer, findR2_spec buffer (by omega)⟩
  rw [trimmedBuffer]
  have hr1 := findR1_lt_length buffer (by omega)
  have hr2 := findR2_lt_length buffer (by omega)
  exact drop_take_eq_map_getD buffer _ _ (by omega)

/-- Witness for `trimming_spec` at the frame `[1/2, 1/10, 1/10, 1/2]`,
sensitivity `1/2`. -/
theorem trimming_spec_witness :
    ¬ gateRejects [1/2, 1/10, 1/10, 1/2] (1/2) ∧
    0 < ([1/2, 1/10, 1/10, 1/2] : List ℚ).length ∧
    trimmedBuffer [1/2, 1/10, 1/10, 1/2] =
      (List.range' (findR1 [1/2, 1/10, 1/10, 1/2])
        (findR2 [1/2, 1/10, 1/10, 1/2] - findR1 [1/2, 1/10, 1/10, 1/2])).map
        (fun i => ([1/2, 1/10, 1/10, 1/2] : List ℚ).getD i 0) :=
  ⟨by norm_num [gateRejects, sumOfSquares, jsThreshold], by norm_num,
    (trimming_spec [1/2, 1/10, 1/10, 1/2] (1/2)
      (by norm_num [gateRejects, sumOfSquares, jsThreshold]) (by norm_num)).1⟩

/-- C4 counterexample: on the gated-through frame `[1/2, 1/10, 3/10, 1/10]`
the scans give `r1 = 1`, `r2 = 3`, and the working buffer is
`[1/10, 3/10]` — the sample at index `r2` is excluded, so the buffer is not
the inclusive crop `[r1, r2]` the claim describes. -/
theorem trimming_inclusive_counterexample :
    ¬ gateRejects [1/2, 1/10, 3/10, 1/10] (1/2) ∧
    findR1 [1/2, 1/10, 3/10, 1/10] = 1 ∧
    findR2 [1/2, 1/10, 3/10, 1/10] = 3 ∧
    trimmedBuffer [1/2, 1/10, 3/10, 1/10] = [1/10, 3/10] ∧
    trimmedBuffer [1/2, 1/10, 3/10, 1/10] ≠
      (List.range' (findR1 [1/2, 1/10, 3/10, 1/10])
        (findR2 [1/2, 1/10, 3/10, 1/10] + 1 -
          findR1 [1/2, 1/10, 3/10, 1/10])).map
        (fun i => ([1/2, 1/10, 3/10, 1/10] : List ℚ).getD i 0) := by
  have hr1 : findR1 [1/2, 1/10, 3/10, 1/10] = 1 := by
    norm_num [findR1, firstIdx, List.range', abs_lt]
  have hr2 : findR2 [1/2, 1/10, 3/10, 1/10] = 3 := by
    norm_num [findR2, firstIdx, List.range', abs_lt]
  refine ⟨by norm_num [gateRejects, sumOfSquares, jsThreshold], hr1, hr2,
    ?_, ?_⟩
  · rw [trimmedBuffer, hr1, hr2]
    rfl
  · rw [trimmedBuffer, hr1, hr2]
    norm_num [List.range']

/-- In-bounds JavaScript read of a natural index. -/
theorem jsGet_natCast (c : List ℚ) (k : ℕ) (h : k < c.length) :
    jsGet c (k : ℤ) = some (c.getD k 0) := by
  rw [jsGet, if_pos (Int.natCast_nonneg k), Int.toNat_natCast,
    List.get?_eq_getElem?, List.getElem?_eq_getElem h,
    List.getD_eq_getElem?_getD, List.getElem?_eq_getElem h]
  rfl

/-- For an interior integer lag (`1 ≤ T0`, `T0 + 1 < c.length`) all three
neighbour reads are in bounds and the parabolic step is the exact
`if a = 0 then T0 else T0 - b / (2 * a)` of the claim. -/
theorem refineT0_interior (c : List ℚ) (T0 : ℕ) (h1 : 1 ≤ T0)
    (h2 : T0 + 1 < c.length) :
    refineT0 c (T0 : ℤ) =
      (if (c.getD (T0 - 1) 0 + c.getD (T0 + 1) 0 - 2 * c.getD T0 0) / 2 = 0
       then (T0 : ℚ)
       else (T0 : ℚ) - ((c.getD (T0 + 1) 0 - c.getD (T0 - 1) 0) / 2) /
         (2 * ((c.getD (T0 - 1) 0 + c.getD (T0 + 1) 0
           - 2 * c.getD T0 0) / 2))) := by
  have e1 : (T0 : ℤ) - 1 = ((T0 - 1 : ℕ) : ℤ) := by omega
  have e3 : (T0 : ℤ) + 1 = ((T0 + 1 : ℕ) : ℤ) := by omega
  rw [refineT0, e1, e3, jsGet_natCast c (T0 - 1) (by omega),
    jsGet_natCast c T0 (by omega), jsGet_natCast c (T0 + 1) h2]
  simp only [Int.cast_natCast]

/-- C6: whenever the integer peak lag `T0` is interior (both neighbours
`c[T0-1]`, `c[T0+1]` exist), `autoCorrelate` refines `T0` to `T0 - b / (2a)`
with `a = (x1 + x3 - 2 * x2) / 2` and `b = (x3 - x1) / 2`, leaves it
unchanged exactly when `a = 0`, and returns `sampleRate` divided by the
(possibly refined) period. -/
theorem parabolic_refinement (buffer : List ℚ) (sr s : ℚ) (T0 : ℕ)
    (hgate : ¬ gateRejects buffer s)
    (hT0 : (peak buffer).2 = (T0 : ℤ))
    (h1 : 1 ≤ T0) (h2 : T0 + 1 < (corr buffer).length)
    (hnz : refineT0 (corr buffer) (T0 : ℤ) ≠ 0) :
    (autoCorrelate buffer sr s).frequency =
      some (sr /
        (if ((corr buffer).getD (T0 - 1) 0 + (corr buffer).getD (T0 + 1) 0
              - 2 * (corr buffer).getD T0 0) / 2 = 0
         then (T0 : ℚ)
         else (T0 : ℚ) -
           (((corr buffer).getD (T0 + 1) 0 - (corr buffer).getD (T0 - 1) 0)
             / 2) /
           (2 * (((corr buffer).getD (T0 - 1) 0
             + (corr buffer).getD (T0 + 1) 0
             - 2 * (corr buffer).getD T0 0) / 2)))) := by
  rw [autoCorrelate, if_neg hgate]
  dsimp only
  rw [hT0]
  have hnz' := hnz
  rw [refineT0_interior _ _ h1 h2] at hnz'
  rw [refineT0_interior _ _ h1 h2, if_neg hnz']

/-- Witness for `parabolic_refinement` on a gated-through period-2 frame:
the trimmed buffer is `[1/10, -1/10, 1/10, -1/10, 1/10]`, the peak lag is the
interior lag `2`, the refined period is `25/12`, and the returned frequency is
`44100 / (25/12) = 21168`. -/
theorem parabolic_refinement_witness :
    ¬ gateRejects [1/2, 1/10, -1/10, 1/10, -1/10, 1/10, 1/10, 1/2] (1/2) ∧
    (peak [1/2, 1/10, -1/10, 1/10, -1/10, 1/10, 1/10, 1/2]).2 =
      ((2 : ℕ) : ℤ) ∧
    (1 : ℕ) ≤ 2 ∧
    (2 : ℕ) + 1 <
      (corr [1/2, 1/10, -1/10, 1/10, -1/10, 1/10, 1/10, 1/2]).length ∧
    refineT0 (corr [1/2, 1/10, -1/10, 1/10, -1/10, 1/10, 1/10, 1/2])
      ((2 : ℕ) : ℤ) ≠ 0 ∧
    (autoCorrelate [1/2, 1/10, -1/10, 1/10, -1/10, 1/10, 1/10, 1/2]
      44100 (1/2)).frequency = some 21168 := by
  have hgate :
      ¬ gateRejects [1/2, 1/10, -1/10, 1/10, -1/10, 1/10, 1/10, 1/2] (1/2) := by
    norm_num [gateRejects, sumOfSquares, jsThreshold]
  have htrim : trimmedBuffer [1/2, 1/10, -1/10, 1/10, -1/10, 1/10, 1/10, 1/2] =
      [1/10, -1/10, 1/10, -1/10, 1/10] := by
    norm_num [trimmedBuffer, findR1, findR2, firstIdx, List.range', abs_lt]
  have hcorr : corr [1/2, 1/10, -1/10, 1/10, -1/10, 1/10, 1/10, 1/2] =
      [1/20, -1/25, 3/100, -1/50, 1/100] := by
    rw [corr, htrim]
    norm_num [computeC, List.range_succ]
  have hd : findDAux [(1 : ℚ)/20, -1/25, 3/100, -1/50, 1/100] = 1 := by
    norm_num [findDAux]
  have hpeak : peak [1/2, 1/10, -1/10, 1/10, -1/10, 1/10, 1/10, 1/2] =
      (3/100, 2) := by
    rw [peak, hcorr, hd]
    norm_num [findMax, List.range']
  have hT0 : (peak [1/2, 1/10, -1/10, 1/10, -1/10, 1/10, 1/10, 1/2]).2 =
      ((2 : ℕ) : ℤ) := by
    rw [hpeak]
    norm_num
  have hlen : (2 : ℕ) + 1 <
      (corr [1/2, 1/10, -1/10, 1/10, -1/10, 1/10, 1/10, 1/2]).length := by
    rw [hcorr]
    norm_num
  have hnz : refineT0 (corr [1/2, 1/10, -1/10, 1/10, -1/10, 1/10, 1/10, 1/2])
      ((2 : ℕ) : ℤ) ≠ 0 := by
    rw [hcorr]
    have e : ((2 : ℕ) : ℤ) = 2 := by norm_num
    rw [e]
    have h1 : jsGet [(1 : ℚ)/20, -1/25, 3/100, -1/50, 1/100] (2 - 1) =
        some (-1/25) := rfl
    have h2 : jsGet [(1 : ℚ)/20, -1/25, 3/100, -1/50, 1/100] 2 =
        some (3/100) := rfl
    have h3 : jsGet [(1 : ℚ)/20, -1/25, 3/100, -1/50, 1/100] (2 + 1) =
        some (-1/50) := rfl
    rw [refineT0, h1, h2, h3]
    norm_num
  refine ⟨hgate, hT0, by norm_num, hlen, hnz, ?_⟩
  have hth := parabolic_refinement _ 44100 (1/2) 2 hgate hT0 (by norm_num)
    hlen hnz
  rw [hth, hcorr]
  norm_num [List.getD]

/-- C7: for every positive frequency and positive reference,
`getNoteFromFrequency` computes `nearestIndex = round(12 * log2(f / a4)) + 69`,
`name = NOTE_NAMES[nearestIndex % 12]` (JavaScript truncating `%`),
`octave = ⌊nearestIndex / 12⌋ - 1`,
`targetFrequency = a4 * 2 ^ ((nearestIndex - 69) / 12)` and
`cents = 1200 * log2(f / targetFrequency)`. -/
theorem note_mapping_formula (f a4 : ℝ) (hf : 0 < f) (ha : 0 < a4) :
    (getNoteFromFrequency f a4).noteIndex =
      some (round (12 * Real.logb 2 (f / a4)) + 69) ∧
    (getNoteFromFrequency f a4).name =
      listGetJS NOTE_NAMES
        (Int.tmod (round (12 * Real.logb 2 (f / a4)) + 69) 12) ∧
    (getNoteFromFrequency f a4).octave =
      some (⌊((round (12 * Real.logb 2 (f / a4)) + 69 : ℤ) : ℝ) / 12⌋ - 1) ∧
    (getNoteFromFrequency f a4).targetFrequency =
      some (a4 * (2 : ℝ) ^
        ((((round (12 * Real.logb 2 (f / a4)) + 69 : ℤ) : ℝ) - 69) / 12)) ∧
    (getNoteFromFrequency f a4).cents =
      some (1200 * Real.logb 2 (f /
        (a4 * (2 : ℝ) ^
          ((((round (12 * Real.logb 2 (f / a4)) + 69 : ℤ) : ℝ) - 69) / 12)))) := by
  have hr : 0 < f / a4 := div_pos hf ha
  have hfl : ∀ n : ℤ, ⌊((n : ℚ)) / 12⌋ = ⌊((n : ℝ)) / 12⌋ := by
    intro n
    rw [show ((n : ℝ)) / 12 = (((n / 12 : ℚ) : ℝ)) from by push_cast; ring,
      Rat.floor_cast]
  rw [getNoteFromFrequency, if_pos hr]
  refine ⟨?_, ?_, ?_, ?_, ?_⟩ <;>
    simp only [Real.logb, hfl]

/-- Witness for `note_mapping_formula`: `getNoteFromFrequency(440, a4 = 440)`
yields name `"A"`, octave `4` and a cents deviation of exactly `0`. -/
theorem note_mapping_formula_witness :
    (getNoteFromFrequency 440 440).name = some "A" ∧
    (getNoteFromFrequency 440 440).octave = some 4 ∧
    (getNoteFromFrequency 440 440).cents = some 0 := by
  obtain ⟨h1, h2, h3, h4, h5⟩ :=
    note_mapping_formula 440 440 (by norm_num) (by norm_num)
  have hone : (440 : ℝ) / 440 = 1 := by norm_num
  have hround : round ((12 : ℝ) * Real.logb 2 ((440 : ℝ) / 440)) + 69 = 69 := by
    rw [hone, Real.logb_one]
    norm_num
  refine ⟨?_, ?_, ?_⟩
  · rw [h2, hround]
    rfl
  · rw [h3, hround]
    norm_num
  · rw [h5, hround]
    have he : ((((69 : ℤ) : ℝ)) - 69) / 12 = 0 := by norm_num
    rw [he, Real.rpow_zero, mul_one, hone, Real.logb_one, mul_zero]

/-- C10: for the strictly positive frequency `3` Hz (below the `~8.2` Hz
break-even at `a4 = 440`), `noteIndex = round(12 * log2(3/440)) + 69 = -17`
is negative, JavaScript `%` gives the negative remainder `-5`, and the
pitch-class table read misses: the returned note name is `undefined`. -/
theorem low_frequency_undefined_name :
    (getNoteFromFrequency 3 440).noteIndex = some (-17) ∧
    (getNoteFromFrequency 3 440).name = none := by
  have hr : (0 : ℝ) < 3 / 440 := by norm_num
  have hlog2 : (0 : ℝ) < Real.log 2 := Real.log_pos (by norm_num)
  have hA0 : (0 : ℝ) < (440 : ℝ) / 3 := by norm_num
  have hupper : 24 * Real.log ((440 : ℝ) / 3) ≤ 173 * Real.log 2 := by
    have h1 : ((440 : ℝ) / 3) ^ (24 : ℕ) ≤ 2 ^ (173 : ℕ) := by
      rw [div_pow, div_le_iff (by positivity)]
      norm_num
    have h2 : Real.log (((440 : ℝ) / 3) ^ (24 : ℕ)) ≤
        Real.log ((2 : ℝ) ^ (173 : ℕ)) :=
      Real.log_le_log (by positivity) h1
    rw [Real.log_pow, Real.log_pow] at h2
    exact_mod_cast h2
  have hlower : 171 * Real.log 2 < 24 * Real.log ((440 : ℝ) / 3) := by
    have h1 : (2 : ℝ) ^ (171 : ℕ) < ((440 : ℝ) / 3) ^ (24 : ℕ) := by
      rw [div_pow, lt_div_iff (by positivity)]
      norm_num
    have h2 : Real.log ((2 : ℝ) ^ (171 : ℕ)) <
        Real.log (((440 : ℝ) / 3) ^ (24 : ℕ)) :=
      Real.log_lt_log (by positivity) h1
    rw [Real.log_pow, Real.log_pow] at h2
    exact_mod_cast h2
  have hAlog : Real.log ((3 : ℝ) / 440) = - Real.log ((440 : ℝ) / 3) := by
    rw [Real.log_div (by norm_num) (by norm_num),
      Real.log_div (by norm_num) (by norm_num)]
    ring
  have ht : Real.log ((440 : ℝ) / 3) / Real.log 2 ≤ 173 / 24 := by
    rw [div_le_div_iff hlog2 (by norm_num : (0 : ℝ) < 24)]
    linarith
  have ht' : 171 / 24 < Real.log ((440 : ℝ) / 3) / Real.log 2 := by
    rw [div_lt_div_iff (by norm_num : (0 : ℝ) < 24) hlog2]
    linarith
  have hnn : round ((12 : ℝ) * (Real.log (3 / 440) / Real.log 2)) = -86 := by
    rw [round_eq, Int.floor_eq_iff]
    rw [hAlog, neg_div]
    constructor
    · push_cast
      linarith
    · push_cast
      linarith
  rw [getNoteFromFrequency, if_pos hr]
  refine ⟨?_, ?_⟩
  · show some (round ((12 : ℝ) * (Real.log (3 / 440) / Real.log 2)) + 69) =
      some (-17)
    rw [hnn]
    norm_num
  · show listGetJS NOTE_NAMES
        (Int.tmod (round ((12 : ℝ) * (Real.log (3 / 440) / Real.log 2)) + 69)
          12) = none
    rw [hnn]
    rfl
